import Mathlib

/-!
# Sandboxed per-instance filesystem layer (wings `filesystem` package)

A shallow embedding of the sandboxed filesystem layer of the repository.
The repository ships the package's test-suite (`src/unnamed/part_000` -
`part_002`); the implementation of the `Filesystem` type and its operations
(`New`, `Open`, `Writefile`, `CreateDirectory`, `Rename`, `Copy`, `Delete`,
the safe-path resolver and the disk accountant) is not among the source
files, so every operation below is modelled from the specification
(sections 3, 4.1, 4.2 and 4.3 of the spec) and cross-checked against the
behaviours the test-suite asserts.

The host filesystem under the root is modelled as a finite map from
root-relative component lists to file contents, together with an explicit
set of directories.  Out-of-root host paths are not representable in the
model at all: the sandbox property "no host path outside the root is
touched" is expressed by failed operations returning the state unchanged.
-/

namespace WingsFS

/-- A root-relative path, as its list of components. -/
abbrev FPath := List String

/-- Modelled from the spec: the public error taxonomy (spec section 6).
`IOErr` stands for the unwrapped transient IO errors. -/
inductive FsError where
  | NotFound
  | IsDirectory
  | AlreadyExists
  | NotEnoughDiskSpace
  | CannotDeleteRoot
  | IOErr
  deriving Repr, DecidableEq

/-- Modelled from the spec: the contents of the sandbox root.  Regular
files are an association list from component path to contents (a byte
string); directories are tracked explicitly, the root `[]` itself is
always a directory and is not listed. -/
structure VFs where
  files : List (FPath × String)
  dirs : List FPath
  deriving Repr, DecidableEq

/-- Contents of the regular file at `p`, if one exists. -/
def VFs.lookupFile (v : VFs) (p : FPath) : Option String :=
  v.files.lookup p

/-- Is `p` a directory?  The root `[]` always is. -/
def VFs.isDir (v : VFs) (p : FPath) : Bool :=
  p == [] || v.dirs.contains p

/-- Does anything (file or directory) exist at `p`? -/
def VFs.pathExists (v : VFs) (p : FPath) : Bool :=
  (v.lookupFile p).isSome || v.isDir p

/-- Modelled from the spec: the filesystem instance (spec section 3): the
virtual contents of the root, the used-bytes counter (signed, spec says
signed 64-bit; overflow is out of scope here) and the quota
(`diskLimit = 0` means unlimited). -/
structure Filesystem where
  vfs : VFs
  diskUsed : Int
  diskLimit : Int
  deriving Repr, DecidableEq

/-- Split a string at `/` separators (the components of a user path).
Mirrors Go's `strings.Split(s, "/")` for the claims' inputs; written by
structural recursion so that it reduces in the kernel. -/
def splitSlashAux : List Char → List Char → List String
  | [], acc => [String.mk acc.reverse]
  | c :: rest, acc =>
    if c == '/' then String.mk acc.reverse :: splitSlashAux rest []
    else splitSlashAux rest (c :: acc)

/-- All `/`-separated components of a user path string. -/
def splitSlash (s : String) : List String :=
  splitSlashAux s.toList []

/-- Modelled from the spec (section 4.1, step 2): lexically resolve the
cleaned components against the accumulated prefix, rejecting (`none`) any
state in which the accumulated prefix would escape the root. -/
def resolveComponents : List String → FPath → Option FPath
  | [], acc => some acc
  | c :: rest, acc =>
    if c == ".." then
      match acc with
      | [] => none
      | _ => resolveComponents rest acc.dropLast
    else resolveComponents rest (acc ++ [c])

/-- Modelled from the spec: the Path Resolver (spec section 4.1, `SafePath`
in the missing implementation).  Empty components and `.` are dropped, `..`
is resolved component-by-component, and a path whose accumulated prefix
would escape the root is OutOfRoot (`none`).  User paths here never carry
the host-root prefix, so step 1 (prefix stripping) is the identity; the
model has no symlinks, so step 4 is vacuous. -/
def resolve (s : String) : Option FPath :=
  resolveComponents ((splitSlash s).filter (fun c => c != "" && c != ".")) []

/-- All nonempty ancestors of a path, shortest first; the last element is
the path itself. -/
def ancestors : FPath → List FPath
  | [] => []
  | c :: rest => [c] :: (ancestors rest).map (fun q => c :: q)

/-- Add a directory to the set if it is not already present. -/
def addDir (ds : List FPath) (q : FPath) : List FPath :=
  if ds.contains q then ds else ds ++ [q]

/-- Modelled from the spec: `MkdirAll` — create `p` and all missing
ancestors (spec sections 4.2 `CreateDirectory` / `Writefile`). -/
def VFs.mkdirAll (v : VFs) (p : FPath) : VFs :=
  { v with dirs := (ancestors p).foldl addDir v.dirs }

/-- Modelled from the spec: the accountant's admission test (spec section
4.3): true iff `limit == 0` or `used + delta ≤ limit`. -/
def hasSpaceFor (fs : Filesystem) (delta : Int) : Bool :=
  fs.diskLimit == 0 || fs.diskUsed + delta ≤ fs.diskLimit

/-- Size (in bytes) of the file at `path`, or 0 when absent — the `old`
of `delta = new − old` in the spec's `Writefile`. -/
def oldSize (v : VFs) (path : FPath) : Int :=
  match v.lookupFile path with
  | some c => (c.length : Int)
  | none => 0

/-- Modelled from the spec: `Open(path, sink)` — copies the file's bytes
to the sink.  `NotFound` when missing or OutOfRoot, `IsDirectory` when the
target is a directory; no state effect. -/
def Open (fs : Filesystem) (p : String) : Except FsError String :=
  match resolve p with
  | none => Except.error FsError.NotFound
  | some path =>
    if fs.vfs.isDir path then Except.error FsError.IsDirectory
    else
      match fs.vfs.lookupFile path with
      | some c => Except.ok c
      | none => Except.error FsError.NotFound

/-- Modelled from the spec: `Readfile(path)` — convenience wrapper over
`Open` into an in-memory buffer. -/
def Readfile (fs : Filesystem) (p : String) : Except FsError String :=
  Open fs p

/-- Modelled from the spec: `Writefile(path, source)`.  Resolves the path
(OutOfRoot ⇒ `NotFound`), computes `delta = new − old`, rejects with
`NotEnoughDiskSpace` when the quota would be exceeded (before any bytes
are written), creates missing parent directories, opens the target with
create-or-truncate semantics and on success increments the accountant by
`delta`.  A failed call returns the state unchanged.  Create-or-truncate
open of an existing directory fails at the host, surfaced unwrapped
(`IOErr`). -/
def Writefile (fs : Filesystem) (p : String) (content : String) :
    Option FsError × Filesystem :=
  match resolve p with
  | none => (some FsError.NotFound, fs)
  | some path =>
    if fs.vfs.isDir path then (some FsError.IOErr, fs)
    else
      let delta : Int := (content.length : Int) - oldSize fs.vfs path
      if hasSpaceFor fs delta then
        let v1 := fs.vfs.mkdirAll path.dropLast
        let v2 : VFs :=
          { v1 with files := v1.files.filter (fun fl => fl.1 != path) ++ [(path, content)] }
        (none, { fs with vfs := v2, diskUsed := fs.diskUsed + delta })
      else (some FsError.NotEnoughDiskSpace, fs)

/-- Modelled from the spec: `CreateDirectory(name, parent)` — creates
`parent/name` and all missing ancestors; no disk-usage effect. -/
def CreateDirectory (fs : Filesystem) (name parent : String) :
    Option FsError × Filesystem :=
  match resolve (parent ++ "/" ++ name) with
  | none => (some FsError.NotFound, fs)
  | some path => (none, { fs with vfs := fs.vfs.mkdirAll path })

/-- Modelled from the spec: `Rename(from, to)`.  OutOfRoot on either side
⇒ `NotFound`; `AlreadyExists` when the resolved destination is the root or
already exists; `NotFound` when the source does not exist; otherwise moves
the file or subtree, creating missing parent directories of the
destination, with no net accountant change. -/
def Rename (fs : Filesystem) (src dst : String) : Option FsError × Filesystem :=
  match resolve src, resolve dst with
  | none, _ => (some FsError.NotFound, fs)
  | some _, none => (some FsError.NotFound, fs)
  | some f, some t =>
    if fs.vfs.pathExists t then (some FsError.AlreadyExists, fs)
    else if fs.vfs.pathExists f then
      let v1 : VFs :=
        { files := fs.vfs.files.map
            (fun fl => if f.isPrefixOf fl.1 then (t ++ fl.1.drop f.length, fl.2) else fl),
          dirs := fs.vfs.dirs.map
            (fun d => if f.isPrefixOf d then t ++ d.drop f.length else d) }
      (none, { fs with vfs := v1.mkdirAll t.dropLast })
    else (some FsError.NotFound, fs)

/-- Index of the last `.` in a file's basename, if any. -/
def lastDotIdx (cs : List Char) : Option Nat :=
  ((List.range cs.length).filter (fun i => cs.getD i '/' == '.')).getLast?

/-- Split a basename into stem and extension (the extension keeps its
leading dot; empty when the name has no dot). -/
def splitExt (name : String) : String × String :=
  let cs := name.toList
  match lastDotIdx cs with
  | none => (name, "")
  | some i => (String.mk (cs.take i), String.mk (cs.drop i))

/-- Modelled from the spec: the copy-suffix rule — candidate `i = 0` is
`stem copy.ext`, candidate `i ≥ 1` is `stem copy i.ext`; the extension is
omitted for extensionless files. -/
def copyName (stem ext : String) : Nat → String
  | 0 => stem ++ " copy" ++ ext
  | Nat.succ n => stem ++ " copy " ++ toString (n + 1) ++ ext

/-- Modelled from the spec: `Copy(path)`.  The source must be a regular
file inside the root, else `NotFound`; rejects with `NotEnoughDiskSpace`
when `used + size(source)` exceeds the quota; the destination is the first
unused name of the copy-suffix rule, in the source's directory; on success
the accountant grows by `size(source)`. -/
def Copy (fs : Filesystem) (p : String) : Option FsError × Filesystem :=
  match resolve p with
  | none => (some FsError.NotFound, fs)
  | some path =>
    match fs.vfs.lookupFile path with
    | none => (some FsError.NotFound, fs)
    | some content =>
      if hasSpaceFor fs (content.length : Int) then
        let dir := path.dropLast
        let (stem, ext) := splitExt (path.getLastD "")
        let cands := (List.range (fs.vfs.files.length + fs.vfs.dirs.length + 2)).map
          (fun i => dir ++ [copyName stem ext i])
        match cands.find? (fun q => !fs.vfs.pathExists q) with
        | none => (some FsError.IOErr, fs)
        | some q =>
          (none, { fs with
            vfs := { fs.vfs with files := fs.vfs.files ++ [(q, content)] },
            diskUsed := fs.diskUsed + (content.length : Int) })
      else (some FsError.NotEnoughDiskSpace, fs)

/-- Sum of the sizes of the regular files lying under `path` (the
directory-deletion decrement of the spec's `Delete`). -/
def subtreeSize (v : VFs) (path : FPath) : Int :=
  ((v.files.filter (fun fl => path.isPrefixOf fl.1)).map
    (fun fl => (fl.2.length : Int))).sum

/-- Modelled from the spec: `Delete(path)`.  The root itself (as reached
by `"/"` or `""`) is rejected with the distinct `CannotDeleteRoot` error;
OutOfRoot ⇒ `NotFound`; a missing target is success (idempotent); a file
is removed and its size subtracted; a directory's subtree is removed and
the sum of contained regular-file sizes subtracted. -/
def Delete (fs : Filesystem) (p : String) : Option FsError × Filesystem :=
  match resolve p with
  | none => (some FsError.NotFound, fs)
  | some path =>
    if path == [] then (some FsError.CannotDeleteRoot, fs)
    else if fs.vfs.isDir path then
      let v : VFs :=
        { files := fs.vfs.files.filter (fun fl => !path.isPrefixOf fl.1),
          dirs := fs.vfs.dirs.filter (fun d => !path.isPrefixOf d) }
      (none, { fs with vfs := v, diskUsed := fs.diskUsed - subtreeSize fs.vfs path })
    else
      match fs.vfs.lookupFile path with
      | some c =>
        (none, { fs with
          vfs := { fs.vfs with files := fs.vfs.files.filter (fun fl => fl.1 != path) },
          diskUsed := fs.diskUsed - (c.length : Int) })
      | none => (none, fs)

/-- A record as returned by the spec's `Stat`: root-relative name, size,
and whether the target is a directory. -/
structure StatRecord where
  name : String
  size : Nat
  isDirFlag : Bool
  deriving Repr, DecidableEq

/-- Modelled from the spec: `Stat(path)` — name, size and directory flag
of the target; `NotFound` when missing or OutOfRoot. -/
def Stat (fs : Filesystem) (p : String) : Except FsError StatRecord :=
  match resolve p with
  | none => Except.error FsError.NotFound
  | some path =>
    if fs.vfs.isDir path then Except.ok ⟨path.getLastD "", 0, true⟩
    else
      match fs.vfs.lookupFile path with
      | some c => Except.ok ⟨path.getLastD "", c.length, false⟩
      | none => Except.error FsError.NotFound

/-- The Stat records of the direct children of `path`: the files and
directories lying exactly one component below it. -/
def VFs.childrenOf (v : VFs) (path : FPath) : List StatRecord :=
  (v.files.filter (fun fl => fl.1.dropLast == path && fl.1 != path)).map
    (fun fl => ⟨fl.1.getLastD "", fl.2.length, false⟩) ++
  (v.dirs.filter (fun d => d.dropLast == path && d != path)).map
    (fun d => ⟨d.getLastD "", 0, true⟩)

/-- Modelled from the spec: `ListDirectory(path)` — the unordered sequence
of Stat records for the direct children of the target directory.
`NotFound` when missing or OutOfRoot; reading a regular file as a
directory fails at the host, surfaced unwrapped (`IOErr`). -/
def ListDirectory (fs : Filesystem) (p : String) :
    Except FsError (List StatRecord) :=
  match resolve p with
  | none => Except.error FsError.NotFound
  | some path =>
    if fs.vfs.isDir path then Except.ok (fs.vfs.childrenOf path)
    else
      match fs.vfs.lookupFile path with
      | some _ => Except.error FsError.IOErr
      | none => Except.error FsError.NotFound

/-- Modelled from the spec: `Chown(path)` — applies the configured
ownership recursively, with no disk-usage effect.  Ownership is metadata
outside the modelled state, so a successful call changes nothing here;
`NotFound` when the target is missing or OutOfRoot. -/
def Chown (fs : Filesystem) (p : String) : Option FsError × Filesystem :=
  match resolve p with
  | none => (some FsError.NotFound, fs)
  | some path =>
    if fs.vfs.pathExists path then (none, fs)
    else (some FsError.NotFound, fs)

/-! ## Auxiliary lemmas about the list-based filesystem contents -/

/-- A key all of whose entries are filtered out of an association list is
not found in the filtered list. -/
theorem lookup_filter_none {β : Type} (pr : FPath × β → Bool) (q : FPath)
    (hq : ∀ b, pr (q, b) = false) :
    ∀ l : List (FPath × β), (l.filter pr).lookup q = none := by
  intro l
  induction l with
  | nil => rfl
  | cons hd tl ih =>
    by_cases hp : pr hd = true
    · have hne : (q == hd.1) = false := by
        refine beq_eq_false_iff_ne.mpr ?_
        intro he
        have hq' : pr (q, hd.2) = false := hq hd.2
        rw [he] at hq'
        rw [show (hd.1, hd.2) = hd from rfl] at hq'
        rw [hq'] at hp
        exact absurd hp (by decide)
      simp [List.filter_cons, hp, List.lookup, hne, ih]
    · simp [List.filter_cons, hp, ih]

/-- When a key does not occur in the left part of an appended association
list, lookup continues in the right part. -/
theorem lookup_append_left_none {β : Type} (q : FPath) :
    ∀ l1 l2 : List (FPath × β), l1.lookup q = none →
      (l1 ++ l2).lookup q = l2.lookup q := by
  intro l1
  induction l1 with
  | nil => intro l2 _; rfl
  | cons hd tl ih =>
    intro l2 h
    cases hb : (q == hd.1) with
    | true => simp [List.lookup, hb] at h
    | false =>
      simp only [List.lookup, hb] at h
      simpa [List.cons_append, List.lookup, hb] using ih l2 h

/-- An element rejected by the filter is not contained in the result. -/
theorem contains_filter_false (pr : FPath → Bool) (q : FPath)
    (hq : pr q = false) :
    ∀ ds : List FPath, (ds.filter pr).contains q = false := by
  intro ds
  induction ds with
  | nil => rfl
  | cons d rest ih =>
    by_cases hp : pr d
    · have hne : q ≠ d := by
        intro he
        rw [he, hp] at hq
        exact absurd hq (by decide)
      have : q ∉ List.filter pr (d :: rest) := by
        intro hmem
        rcases List.mem_filter.mp hmem with ⟨hmem', _⟩
        rcases List.mem_cons.mp hmem' with h | h
        · exact hne h
        · have : (List.filter pr rest).contains q = true := by
            have : q ∈ List.filter pr rest := List.mem_filter.mpr ⟨h, by
              rcases List.mem_filter.mp hmem with ⟨_, hk⟩
              exact hk⟩
            simpa using this
          rw [ih] at this
          exact Bool.false_ne_true this
      simpa using this
    · simpa [List.filter_cons, hp] using ih

/-- `addDir` does not make a different path contained. -/
theorem contains_addDir_false (ds : List FPath) (x q : FPath)
    (h1 : ds.contains q = false) (h2 : x ≠ q) :
    (addDir ds x).contains q = false := by
  have hq : q ∉ ds := by simpa using h1
  by_cases hc : x ∈ ds
  · simpa [addDir, hc] using hq
  · have : q ∉ ds ++ [x] := by
      intro hmem
      rcases List.mem_append.mp hmem with h | h
      · exact hq h
      · exact h2 (List.mem_singleton.mp h).symm
    simpa [addDir, hc] using this

/-- Folding `addDir` over a list avoiding `q` never makes `q` contained. -/
theorem contains_foldl_addDir_false :
    ∀ (l : List FPath) (ds : List FPath) (q : FPath),
      ds.contains q = false → (∀ x ∈ l, x ≠ q) →
      (l.foldl addDir ds).contains q = false := by
  intro l
  induction l with
  | nil => intro ds q h _; simpa using h
  | cons x xs ih =>
    intro ds q h hall
    have hx : x ≠ q := hall x (List.mem_cons_self x xs)
    exact ih (addDir ds x) q (contains_addDir_false ds x q h hx)
      (fun y hy => hall y (List.mem_cons_of_mem x hy))

/-- Every ancestor of a path is at most as long as the path. -/
theorem length_le_of_mem_ancestors :
    ∀ (p q : FPath), q ∈ ancestors p → q.length ≤ p.length := by
  intro p
  induction p with
  | nil => intro q h; simp [ancestors] at h
  | cons c rest ih =>
    intro q h
    simp only [ancestors, List.mem_cons, List.mem_map] at h
    rcases h with h | ⟨r, hr, rfl⟩
    · subst h; simp
    · simpa using ih r hr

/-- A list is a prefix of itself. -/
theorem isPrefixOf_self : ∀ p : FPath, p.isPrefixOf p = true := by
  intro p
  induction p with
  | nil => rfl
  | cons c rest ih => simp [List.isPrefixOf, ih]

/-- A nonempty list is a prefix only of nonempty lists. -/
theorem ne_nil_of_isPrefixOf {p q : FPath}
    (h : p.isPrefixOf q = true) (hp : p ≠ []) : q ≠ [] := by
  cases p with
  | nil => exact absurd rfl hp
  | cons c rest =>
    cases q with
    | nil => simp [List.isPrefixOf] at h
    | cons d qs => simp

/-- Equality of `Except` results is decidable when both sides are. -/
instance exceptDecEq {ε α : Type} [DecidableEq ε] [DecidableEq α] :
    DecidableEq (Except ε α) := fun x y =>
  match x, y with
  | Except.ok a, Except.ok b =>
    if h : a = b then isTrue (by rw [h]) else
      isFalse (by intro he; cases he; exact h rfl)
  | Except.ok _, Except.error _ => isFalse (by intro he; cases he)
  | Except.error _, Except.ok _ => isFalse (by intro he; cases he)
  | Except.error e, Except.error f =>
    if h : e = f then isTrue (by rw [h]) else
      isFalse (by intro he; cases he; exact h rfl)

/-! ## Concrete states used by the claims' literal scenarios -/

/-- A fresh sandbox: empty root, counter zero, no quota. -/
def fsEmpty : Filesystem := ⟨⟨[], []⟩, 0, 0⟩

/-- The root of the Copy/Rename/Delete scenarios: only `source.txt` with
contents "test content" (12 bytes), the counter matching. -/
def fsSrc : Filesystem := ⟨⟨[(["source.txt"], "test content")], []⟩, 12, 0⟩

/-- The quota scenario: fresh root with a 1024-byte limit. -/
def fsQuota : Filesystem := ⟨⟨[], []⟩, 0, 1024⟩

/-- 1025 bytes of content, one more than `fsQuota`'s limit. -/
def bigContent : String := String.mk (List.replicate 1025 'a')

/-- The append-resize scenario: empty root, counter pre-set to 100. -/
def fsU100 : Filesystem := ⟨⟨[], []⟩, 100, 0⟩

/-- 100 bytes of content. -/
def content100 : String := String.mk (List.replicate 100 'b')

/-- 50 bytes of content. -/
def content50 : String := String.mk (List.replicate 50 'c')

/-- The recursive-delete scenario: `foo/source.txt`, `foo/bar/source.txt`
and `foo/bar/baz/source.txt`, each 12 bytes, counter 36. -/
def fsTree : Filesystem :=
  ⟨⟨[(["foo", "source.txt"], "test content"),
     (["foo", "bar", "source.txt"], "test content"),
     (["foo", "bar", "baz", "source.txt"], "test content")],
    [["foo"], ["foo", "bar"], ["foo", "bar", "baz"]]⟩, 36, 0⟩

/-! ## The claims -/

/-- C7: `Delete("/")` and `Delete("")` are rejected with the distinct
`CannotDeleteRoot` error (not `NotFound`), leaving the state unchanged, so
the root directory itself can never be removed by `Delete`. -/
theorem c7_delete_root_rejected (fs : Filesystem) :
    Delete fs "/" = (some FsError.CannotDeleteRoot, fs) ∧
    Delete fs "" = (some FsError.CannotDeleteRoot, fs) :=
  ⟨rfl, rfl⟩

/-- C10: `CreateDirectory(name, parent)` accepts a parent with leading and
trailing slashes and creates the directory at the same normalized in-root
location as without them; on a fresh root,
`CreateDirectory("test", "/foozie/barzie/bazzy/")` succeeds and a
subsequent stat of `foozie/barzie/bazzy/test` reports an existing
directory named `test`. -/
theorem c10_createdirectory_slashes (fs : Filesystem) :
    CreateDirectory fs "test" "/foozie/barzie/bazzy/" =
      CreateDirectory fs "test" "foozie/barzie/bazzy" ∧
    (CreateDirectory fs "test" "/foozie/barzie/bazzy/").1 = none ∧
    Stat (CreateDirectory fsEmpty "test" "/foozie/barzie/bazzy/").2
        "foozie/barzie/bazzy/test" =
      Except.ok ⟨"test", 0, true⟩ :=
  ⟨rfl, rfl, by decide⟩

/-- C1: every public operation maps a user path whose resolution is
OutOfRoot to the `NotFound` error kind — indistinguishable from a missing
path — and performs no mutation at all (the returned state is unchanged;
host paths outside the root do not exist in the model, so nothing outside
the root is read, created, modified or removed).  This covers all ten
path-taking operations of the public surface: Open, Readfile, Stat,
Writefile, CreateDirectory, Rename (on either side), Copy, Delete,
ListDirectory and Chown.  The two literal escapes of the scenarios,
`"/some/../foo/../../test.txt"` (Writefile) and `"../ext-source.txt"`
(Rename source), are instances. -/
theorem c1_outofroot_collapses_to_notfound
    (fs : Filesystem) (p q s name parent : String)
    (hp : resolve p = none)
    (hpar : resolve (parent ++ "/" ++ name) = none) :
    Open fs p = Except.error FsError.NotFound ∧
    Readfile fs p = Except.error FsError.NotFound ∧
    Stat fs p = Except.error FsError.NotFound ∧
    Writefile fs p s = (some FsError.NotFound, fs) ∧
    CreateDirectory fs name parent = (some FsError.NotFound, fs) ∧
    Rename fs p q = (some FsError.NotFound, fs) ∧
    Rename fs q p = (some FsError.NotFound, fs) ∧
    Copy fs p = (some FsError.NotFound, fs) ∧
    Delete fs p = (some FsError.NotFound, fs) ∧
    ListDirectory fs p = Except.error FsError.NotFound ∧
    Chown fs p = (some FsError.NotFound, fs) ∧
    resolve "/some/../foo/../../test.txt" = none ∧
    resolve "../ext-source.txt" = none := by
  refine ⟨?_, ?_, ?_, ?_, ?_, ?_, ?_, ?_, ?_, ?_, ?_, by decide, by decide⟩
  · simp [Open, hp]
  · simp [Readfile, Open, hp]
  · simp [Stat, hp]
  · simp [Writefile, hp]
  · simp [CreateDirectory, hpar]
  · simp [Rename, hp]
  · cases hq : resolve q <;> simp [Rename, hp, hq]
  · simp [Copy, hp]
  · simp [Delete, hp]
  · simp [ListDirectory, hp]
  · simp [Chown, hp]

/-- Witness for C1: writing to the escaping path of the literal scenario
fails with `NotFound` and creates nothing (the state is unchanged). -/
theorem c1_outofroot_collapses_to_notfound_witness :
    Writefile fsEmpty "/some/../foo/../../test.txt" "test file content" =
      (some FsError.NotFound, fsEmpty) :=
  (c1_outofroot_collapses_to_notfound fsEmpty "/some/../foo/../../test.txt"
    "target.txt" "test file content" "test" "e/../../something"
    (by decide) (by decide)).2.2.2.1

/-- C3: `Copy` chooses its destination by the copy-suffix rule (first
`stem copy.ext`, then `stem copy 1.ext`, …; extension omitted for
extensionless names), so two successive copies of `source.txt` on a root
holding only that file leave exactly `source.txt`, `source copy.txt` and
`source copy 1.txt`, the original unchanged and the used counter at three
times the source's size. -/
theorem c3_copy_suffix_rule :
    (Copy fsSrc "source.txt").1 = none ∧
    (Copy (Copy fsSrc "source.txt").2 "source.txt").1 = none ∧
    (Copy (Copy fsSrc "source.txt").2 "source.txt").2.vfs.files.map Prod.fst =
      [["source.txt"], ["source copy.txt"], ["source copy 1.txt"]] ∧
    (Copy (Copy fsSrc "source.txt").2 "source.txt").2.vfs.dirs = [] ∧
    (Copy (Copy fsSrc "source.txt").2 "source.txt").2.vfs.lookupFile
      ["source.txt"] = some "test content" ∧
    (Copy (Copy fsSrc "source.txt").2 "source.txt").2.diskUsed =
      3 * (12 : Int) ∧
    copyName "source" ".txt" 0 = "source copy.txt" ∧
    copyName "source" ".txt" 1 = "source copy 1.txt" ∧
    copyName "source" "" 0 = "source copy" := by
  decide

/-- C2: `Writefile` is admitted by quota only if `quota == 0` or
`used + delta ≤ quota` (with `delta = new − old`); when the quota would be
exceeded it fails with `NotEnoughDiskSpace` before any bytes are written
and the state — in particular the used counter — is unchanged. -/
theorem c2_quota_admission (fs : Filesystem) (p s : String) (path : FPath)
    (hres : resolve p = some path) (hdir : fs.vfs.isDir path = false) :
    (¬(fs.diskLimit = 0 ∨
        fs.diskUsed + ((s.length : Int) - oldSize fs.vfs path) ≤ fs.diskLimit) →
      Writefile fs p s = (some FsError.NotEnoughDiskSpace, fs)) ∧
    ((Writefile fs p s).1 = none →
      (fs.diskLimit = 0 ∨
        fs.diskUsed + ((s.length : Int) - oldSize fs.vfs path) ≤ fs.diskLimit)) := by
  have hiff : ∀ d : Int, hasSpaceFor fs d = true ↔
      (fs.diskLimit = 0 ∨ fs.diskUsed + d ≤ fs.diskLimit) := by
    intro d
    simp [hasSpaceFor]
  constructor
  · intro h
    have hsp : hasSpaceFor fs ((s.length : Int) - oldSize fs.vfs path) = false := by
      cases hb : hasSpaceFor fs ((s.length : Int) - oldSize fs.vfs path)
      · rfl
      · exact absurd ((hiff _).mp hb) h
    simp [Writefile, hres, hdir, hsp]
  · intro h
    by_contra hq
    have hsp : hasSpaceFor fs ((s.length : Int) - oldSize fs.vfs path) = false := by
      cases hb : hasSpaceFor fs ((s.length : Int) - oldSize fs.vfs path)
      · rfl
      · exact absurd ((hiff _).mp hb) hq
    simp [Writefile, hres, hdir, hsp] at h

set_option maxRecDepth 100000 in
/-- Witness for C2: with limit 1024 and used 0, writing 1025 bytes to
`test.txt` returns `NotEnoughDiskSpace` with the state unchanged, so the
used counter stays 0. -/
theorem c2_quota_admission_witness :
    Writefile fsQuota "test.txt" bigContent =
      (some FsError.NotEnoughDiskSpace, fsQuota) ∧
    fsQuota.diskUsed = 0 :=
  ⟨(c2_quota_admission fsQuota "test.txt" bigContent ["test.txt"]
      (by decide) (by decide)).1 (by decide),
   rfl⟩

/-- C4: after every successful `Writefile`, the used counter equals its
previous value plus `delta = new − old`, `old` being the target's prior
size (0 when it did not exist) and `new` the number of bytes written. -/
theorem c4_writefile_updates_counter (fs : Filesystem) (p s : String)
    (path : FPath) (hres : resolve p = some path)
    (hok : (Writefile fs p s).1 = none) :
    (Writefile fs p s).2.diskUsed =
      fs.diskUsed + ((s.length : Int) - oldSize fs.vfs path) := by
  by_cases hdir : fs.vfs.isDir path = true
  · simp [Writefile, hres, hdir] at hok
  · have hdir' : fs.vfs.isDir path = false := by simpa using hdir
    cases hsp : hasSpaceFor fs ((s.length : Int) - oldSize fs.vfs path) with
    | false => simp [Writefile, hres, hdir', hsp] at hok
    | true => simp [Writefile, hres, hdir', hsp]

set_option maxRecDepth 100000 in
/-- Witness for C4: starting from used = 100, writing 100 bytes to the new
file `t` gives used = 200, and rewriting `t` with 50 bytes gives 150. -/
theorem c4_writefile_updates_counter_witness :
    (Writefile fsU100 "t" content100).2.diskUsed = 200 ∧
    (Writefile (Writefile fsU100 "t" content100).2 "t" content50).2.diskUsed =
      150 := by
  constructor
  · rw [c4_writefile_updates_counter fsU100 "t" content100 ["t"]
      (by decide) (by decide)]
    decide
  · rw [c4_writefile_updates_counter (Writefile fsU100 "t" content100).2 "t"
      content50 ["t"] (by decide) (by decide)]
    decide

/-- C8: `Rename(from, to)` fails with `AlreadyExists` whenever the
resolved destination already exists or is the root itself, leaving the
state — in particular the source — in place. -/
theorem c8_rename_existing_destination (fs : Filesystem) (src dst : String)
    (f t : FPath) (hf : resolve src = some f) (ht : resolve dst = some t)
    (hex : t = [] ∨ fs.vfs.pathExists t = true) :
    Rename fs src dst = (some FsError.AlreadyExists, fs) := by
  have hex' : fs.vfs.pathExists t = true := by
    rcases hex with h | h
    · subst h
      simp [VFs.pathExists, VFs.isDir]
    · exact h
  simp [Rename, hf, ht, hex']

/-- Witness for C8: `Rename("source.txt", "/")` on the scenario root
returns `AlreadyExists` and leaves the source in place; so does a rename
onto the existing `target.txt` after creating it. -/
theorem c8_rename_existing_destination_witness :
    Rename fsSrc "source.txt" "/" = (some FsError.AlreadyExists, fsSrc) :=
  c8_rename_existing_destination fsSrc "source.txt" "/" ["source.txt"] []
    (by decide) (by decide) (Or.inl rfl)

/-- C5: a successful `Delete` of an in-root directory removes the entire
subtree — nothing under it exists afterwards — and decrements the used
counter by the sum of the sizes of the regular files it contained. -/
theorem c5_recursive_delete (fs : Filesystem) (p : String) (path : FPath)
    (hres : resolve p = some path) (hne : path ≠ [])
    (hdir : fs.vfs.isDir path = true) :
    (Delete fs p).1 = none ∧
    (Delete fs p).2.diskUsed = fs.diskUsed - subtreeSize fs.vfs path ∧
    ∀ q : FPath, path.isPrefixOf q = true →
      (Delete fs p).2.vfs.pathExists q = false := by
  have hroot : (path == []) = false := beq_eq_false_iff_ne.mpr hne
  refine ⟨?_, ?_, ?_⟩
  · simp [Delete, hres, hroot, hdir]
  · simp [Delete, hres, hroot, hdir]
  · intro q hq
    have hqne : q ≠ [] := ne_nil_of_isPrefixOf hq hne
    have hfs' : (Delete fs p).2 =
        { fs with
          vfs := ⟨fs.vfs.files.filter (fun fl => !path.isPrefixOf fl.1),
                  fs.vfs.dirs.filter (fun d => !path.isPrefixOf d)⟩,
          diskUsed := fs.diskUsed - subtreeSize fs.vfs path } := by
      simp [Delete, hres, hroot, hdir]
    have hlook :
        ((fs.vfs.files.filter (fun fl => !path.isPrefixOf fl.1)).lookup q) = none :=
      lookup_filter_none (fun fl => !path.isPrefixOf fl.1) q
        (fun b => by simp [hq]) _
    have hcont :
        ((fs.vfs.dirs.filter (fun d => !path.isPrefixOf d)).contains q) = false :=
      contains_filter_false (fun d => !path.isPrefixOf d) q (by simp [hq]) _
    rw [hfs']
    simp only [VFs.pathExists, VFs.lookupFile, VFs.isDir]
    rw [hlook, hcont, beq_eq_false_iff_ne.mpr hqne]
    rfl

/-- Witness for C5: deleting `foo` in the three-file tree scenario leaves
the counter at `36 − 36 = 0` and none of the three files existing. -/
theorem c5_recursive_delete_witness :
    (Delete fsTree "foo").1 = none ∧
    (Delete fsTree "foo").2.diskUsed = fsTree.diskUsed - subtreeSize fsTree.vfs ["foo"] ∧
    (Delete fsTree "foo").2.diskUsed = 0 ∧
    (Delete fsTree "foo").2.vfs.pathExists ["foo", "source.txt"] = false ∧
    (Delete fsTree "foo").2.vfs.pathExists ["foo", "bar", "source.txt"] = false ∧
    (Delete fsTree "foo").2.vfs.pathExists ["foo", "bar", "baz", "source.txt"] = false :=
  ⟨(c5_recursive_delete fsTree "foo" ["foo"] (by decide) (by decide) (by decide)).1,
   (c5_recursive_delete fsTree "foo" ["foo"] (by decide) (by decide) (by decide)).2.1,
   by
    rw [(c5_recursive_delete fsTree "foo" ["foo"] (by decide) (by decide)
      (by decide)).2.1]
    decide,
   (c5_recursive_delete fsTree "foo" ["foo"] (by decide) (by decide)
      (by decide)).2.2 ["foo", "source.txt"] (by decide),
   (c5_recursive_delete fsTree "foo" ["foo"] (by decide) (by decide)
      (by decide)).2.2 ["foo", "bar", "source.txt"] (by decide),
   (c5_recursive_delete fsTree "foo" ["foo"] (by decide) (by decide)
      (by decide)).2.2 ["foo", "bar", "baz", "source.txt"] (by decide)⟩

/-- C9: `Delete` of an in-root path that does not exist returns success
with the state unchanged, and `Delete` is idempotent — a second `Delete`
of the same path succeeds and changes nothing further. -/
theorem c9_delete_idempotent (fs : Filesystem) (p : String) (path : FPath)
    (hres : resolve p = some path) (hne : path ≠ []) :
    (fs.vfs.pathExists path = false → Delete fs p = (none, fs)) ∧
    Delete (Delete fs p).2 p = (none, (Delete fs p).2) := by
  have hroot : (path == []) = false := beq_eq_false_iff_ne.mpr hne
  constructor
  · intro hmiss
    have h2 : fs.vfs.isDir path = false := by
      cases hb : fs.vfs.isDir path
      · rfl
      · exfalso
        have hx : fs.vfs.pathExists path = true := by simp [VFs.pathExists, hb]
        rw [hx] at hmiss
        exact absurd hmiss (by decide)
    have hlook : fs.vfs.lookupFile path = none := by
      cases hb : fs.vfs.lookupFile path
      · rfl
      · exfalso
        have hx : fs.vfs.pathExists path = true := by simp [VFs.pathExists, hb]
        rw [hx] at hmiss
        exact absurd hmiss (by decide)
    simp [Delete, hres, hroot, h2, hlook]
  · by_cases hdir : fs.vfs.isDir path = true
    · have hfs' : (Delete fs p).2 =
          { fs with
            vfs := ⟨fs.vfs.files.filter (fun fl => !path.isPrefixOf fl.1),
                    fs.vfs.dirs.filter (fun d => !path.isPrefixOf d)⟩,
            diskUsed := fs.diskUsed - subtreeSize fs.vfs path } := by
        simp [Delete, hres, hroot, hdir]
      have hlook :
          ((fs.vfs.files.filter (fun fl => !path.isPrefixOf fl.1)).lookup path) = none :=
        lookup_filter_none (fun fl => !path.isPrefixOf fl.1) path
          (fun b => by simp [isPrefixOf_self]) _
      have hcont :
          ((fs.vfs.dirs.filter (fun d => !path.isPrefixOf d)).contains path) = false :=
        contains_filter_false (fun d => !path.isPrefixOf d) path
          (by simp [isPrefixOf_self]) _
      have hdirlit :
          (VFs.mk (fs.vfs.files.filter (fun fl => !path.isPrefixOf fl.1))
            (fs.vfs.dirs.filter (fun d => !path.isPrefixOf d))).isDir path = false := by
        simp only [VFs.isDir]
        rw [hroot, hcont]
        rfl
      have hlooklit :
          (VFs.mk (fs.vfs.files.filter (fun fl => !path.isPrefixOf fl.1))
            (fs.vfs.dirs.filter (fun d => !path.isPrefixOf d))).lookupFile path = none := by
        simp only [VFs.lookupFile]
        exact hlook
      rw [hfs']
      simp [Delete, hres, hroot, hdirlit, hlooklit]
    · have hdir' : fs.vfs.isDir path = false := by simpa using hdir
      have hmem0 : path ∉ fs.vfs.dirs := by
        simpa [VFs.isDir, hroot] using hdir'
      have hcontb : fs.vfs.dirs.contains path = false := by simpa using hmem0
      cases hlook : fs.vfs.lookupFile path with
      | none =>
        have h1 : Delete fs p = (none, fs) := by
          simp [Delete, hres, hroot, hdir', hlook]
        rw [h1]
        exact h1
      | some c =>
        have h1 : Delete fs p =
            (none, { fs with
              vfs := { fs.vfs with
                files := fs.vfs.files.filter (fun fl => fl.1 != path) },
              diskUsed := fs.diskUsed - (c.length : Int) }) := by
          simp [Delete, hres, hroot, hdir', hlook]
        have hlook2 :
            ((fs.vfs.files.filter (fun fl => fl.1 != path)).lookup path) = none :=
          lookup_filter_none (fun fl => fl.1 != path) path (fun b => by simp) _
        have hdirlit :
            (VFs.mk (fs.vfs.files.filter (fun fl => fl.1 != path))
              fs.vfs.dirs).isDir path = false := by
          simp only [VFs.isDir]
          rw [hroot, hcontb]
          rfl
        have hlooklit :
            (VFs.mk (fs.vfs.files.filter (fun fl => fl.1 != path))
              fs.vfs.dirs).lookupFile path = none := by
          simp only [VFs.lookupFile]
          exact hlook2
        rw [h1]
        simp [Delete, hres, hroot, hdirlit, hlooklit]

/-- Witness for C9: on the scenario root, deleting the missing
`missing.txt` succeeds with the state unchanged, and deleting `source.txt`
twice has the same effect as deleting it once. -/
theorem c9_delete_idempotent_witness :
    Delete fsSrc "missing.txt" = (none, fsSrc) ∧
    Delete (Delete fsSrc "source.txt").2 "source.txt" =
      (none, (Delete fsSrc "source.txt").2) :=
  ⟨(c9_delete_idempotent fsSrc "missing.txt" ["missing.txt"]
      (by decide) (by decide)).1 (by decide),
   (c9_delete_idempotent fsSrc "source.txt" ["source.txt"]
      (by decide) (by decide)).2⟩

/-- C6: for every in-root path, a successful `Writefile(p, s)` is followed
by `Open(p)` yielding exactly the bytes of `s` — also when `p` existed
with different or longer contents, since the target is opened with
create-or-truncate semantics. -/
theorem c6_writefile_open_roundtrip (fs : Filesystem) (p s : String)
    (path : FPath) (hres : resolve p = some path)
    (hok : (Writefile fs p s).1 = none) :
    Open (Writefile fs p s).2 p = Except.ok s := by
  by_cases hdir : fs.vfs.isDir path = true
  · simp [Writefile, hres, hdir] at hok
  · have hdir' : fs.vfs.isDir path = false := by simpa using hdir
    cases hsp : hasSpaceFor fs ((s.length : Int) - oldSize fs.vfs path) with
    | false => simp [Writefile, hres, hdir', hsp] at hok
    | true =>
      have hne : path ≠ [] := by
        intro h
        rw [h] at hdir'
        simp [VFs.isDir] at hdir'
      have hmem0 : path ∉ fs.vfs.dirs := by
        simpa [VFs.isDir, beq_eq_false_iff_ne.mpr hne] using hdir'
      have hcont0 : fs.vfs.dirs.contains path = false := by simpa using hmem0
      have hnotin : ∀ x ∈ ancestors path.dropLast, x ≠ path := by
        intro x hx he
        have hlen := length_le_of_mem_ancestors path.dropLast x hx
        rw [List.length_dropLast] at hlen
        have hpos : 0 < path.length := List.length_pos.mpr hne
        rw [he] at hlen
        omega
      have hnewdirs :
          ((ancestors path.dropLast).foldl addDir fs.vfs.dirs).contains path =
            false :=
        contains_foldl_addDir_false _ _ _ hcont0 hnotin
      have hnewmem : path ∉ (ancestors path.dropLast).foldl addDir fs.vfs.dirs := by
        simpa using hnewdirs
      have hlook :
          (((fs.vfs.files.filter (fun fl => fl.1 != path)) ++ [(path, s)]).lookup
            path) = some s := by
        rw [lookup_append_left_none path _ _
          (lookup_filter_none (fun fl => fl.1 != path) path (fun b => by simp) _)]
        simp [List.lookup]
      simp [Writefile, hres, hdir', hsp, Open, VFs.mkdirAll, VFs.isDir,
        VFs.lookupFile, hmem0, hnewmem, beq_eq_false_iff_ne.mpr hne, hlook]

/-- Witness for C6: writing "original data" to `test.txt` and then
"new data" over it, a subsequent `Open` yields exactly "new data". -/
theorem c6_writefile_open_roundtrip_witness :
    Open (Writefile (Writefile fsEmpty "test.txt" "original data").2
      "test.txt" "new data").2 "test.txt" = Except.ok "new data" :=
  c6_writefile_open_roundtrip (Writefile fsEmpty "test.txt" "original data").2
    "test.txt" "new data" ["test.txt"] (by decide) (by decide)

end WingsFS
